import Mathlib

/-!
Shallow embedding of the VisionSort photo-organizer core logic
(App.tsx / MapView.tsx / dbService.ts / types.ts) and proofs about it.

Modelling conventions:
* TypeScript `number` coordinates are modelled as rationals (`ℚ`); the
  `NaN` escape hatch of JS numbers is not representable, matching the
  claims' restriction to numeric coordinates.
* Optional TS fields (`fileBlob?`, `country?`, `manuallyPlaced?`) are
  modelled as `Option`; `none` models an absent key, so a JS object
  spread keeps the existing value for such a field.
* JS `Date` values are modelled by their accessor results:
  `year` = `getFullYear()`, `month` = `getMonth()` (0-based),
  `day` = `getDate()`.  The locale/format-dependent `new Date(string)`
  parser of step 2 of the date-resolution chain is an external capability
  and is passed in as a function `String → Option JsDate`
  (`none` models an invalid date, i.e. `isNaN(getTime())`).
* The IndexedDB object stores are modelled as association lists keyed by
  id; `put` replaces an existing key in place and otherwise appends.
* The external inference service is passed in as its outcome
  (`Except Unit String` for `identifyLocation`).
-/

namespace VisionSort

/-- The character of a decimal digit (the `d ≥ 10` branch is unreachable
for arguments of the form `n % 10` or `n < 10`). -/
def digitCharOf (d : Nat) : Char :=
  match d with
  | 0 => '0' | 1 => '1' | 2 => '2' | 3 => '3' | 4 => '4'
  | 5 => '5' | 6 => '6' | 7 => '7' | 8 => '8' | 9 => '9'
  | _ => '0'

/-- Fuel-driven helper for `toDigitChars`; `fuel ≥ 1 + n` always suffices,
so the empty out-of-fuel branch is unreachable for the wrapper below. -/
def toDigitCharsAux : Nat → Nat → List Char
  | 0, _ => []
  | fuel + 1, n =>
    if n < 10 then [digitCharOf n]
    else toDigitCharsAux fuel (n / 10) ++ [digitCharOf (n % 10)]

/-- Decimal digit characters of a natural number, mirroring JS `String(n)`
for natural numbers. -/
def toDigitChars (n : Nat) : List Char :=
  toDigitCharsAux (n + 1) n

/-- JS `String(n)` for a natural number. -/
def natToString (n : Nat) : String :=
  String.mk (toDigitChars n)

/-- JS `String(n).padStart(2, '0')`. -/
def pad2 (n : Nat) : String :=
  let s := natToString n
  if s.length < 2 then "0" ++ s else s

/-- A JS `Date` value, recorded through its accessors:
`year = getFullYear()`, `month = getMonth()` (0-based), `day = getDate()`. -/
structure JsDate where
  year : Nat
  month : Nat
  day : Nat
deriving DecidableEq

/-- `formatToISO` from App.tsx: `` `${y}-${m+1 padded}-${d padded}` ``. -/
def formatToISO (date : JsDate) : String :=
  natToString date.year ++ "-" ++ pad2 (date.month + 1) ++ "-" ++ pad2 date.day

/-- The leftmost window of 8 consecutive digit characters, mirroring the
leftmost match of the regex `(\d{4})(\d{2})(\d{2})` in JS `String.match`. -/
def findMatch8 : List Char → Option (List Char)
  | [] => none
  | c :: cs =>
    if ((c :: cs).take 8).length == 8 && ((c :: cs).take 8).all Char.isDigit then
      some ((c :: cs).take 8)
    else findMatch8 cs

/-- JS `parseInt` on a string of decimal digits. -/
def digitsToNat (l : List Char) : Nat :=
  l.foldl (fun a c => 10 * a + (c.toNat - 48)) 0

/-- `extractDateFromFilename` from App.tsx: first 8-digit run, range-checked
(`1980 < y < 2100`, `1 ≤ m ≤ 12`, `1 ≤ d ≤ 31`), formatted `YYYY-MM-DD`. -/
def extractDateFromFilename (filename : String) : Option String :=
  match findMatch8 filename.toList with
  | none => none
  | some w =>
    let y := digitsToNat (w.take 4)
    let m := digitsToNat ((w.drop 4).take 2)
    let d := digitsToNat (w.drop 6)
    if 1980 < y ∧ y < 2100 ∧ 1 ≤ m ∧ m ≤ 12 ∧ 1 ≤ d ∧ d ≤ 31 then
      some (natToString y ++ "-" ++ pad2 m ++ "-" ++ pad2 d)
    else none

/-- Whether `needle` occurs as a contiguous subsequence of `hay`,
mirroring JS `String.includes`. -/
def containsSeq (hay needle : List Char) : Bool :=
  match hay with
  | [] => needle.isEmpty
  | _ :: t => needle.isPrefixOf hay || containsSeq t needle

/-- Replace `:` and `/` by `-`, mirroring `replace(/[:/]/g, '-')`. -/
def normSep (c : Char) : Char :=
  if c = ':' ∨ c = '/' then '-' else c

/-- `parseSmartDate` from App.tsx.  `jsParse` models `new Date(string)`
followed by the `isNaN(getTime())` check (`none` = invalid date). -/
def parseSmartDate (jsParse : String → Option JsDate)
    (filename aiDateStr : String) (fileDate : JsDate) : String :=
  match extractDateFromFilename filename with
  | some d => d
  | none =>
    if !(aiDateStr == "") && !(containsSeq aiDateStr.toList ['.', '.'])
        && !(aiDateStr == "Unknown") then
      let standardized :=
        String.mk ((aiDateStr.toList.map normSep).takeWhile (fun c => c ≠ ' '))
      match jsParse standardized with
      | some parsed =>
        if parsed.year > 1980 then formatToISO parsed else formatToISO fileDate
      | none => formatToISO fileDate
    else formatToISO fileDate

/-- The binary payload of an uploaded file (a JS `File`, which is a `Blob`
carrying `name`, `size`, `lastModified` and a MIME type). -/
structure FileData where
  name : String
  size : Nat
  lastModified : Nat
  mime : String
  bytes : List Nat
deriving DecidableEq

/-- `PhotoMetadata` from types.ts. -/
structure PhotoMetadata where
  id : String
  url : String
  fileBlob : Option FileData
  name : String
  locationName : String
  country : Option String
  latitude : ℚ
  longitude : ℚ
  date : String
  description : String
  isProcessing : Bool
  manuallyPlaced : Option Bool
deriving DecidableEq

/-- `AnalysisResult` from types.ts (the inference service's response). -/
structure AnalysisResult where
  locationName : String
  country : Option String
  latitude : ℚ
  longitude : ℚ
  date : String
  description : String
deriving DecidableEq

/-- JS object spread `{ ...e, ...p }` where `p` is a `PhotoMetadata` value:
every required field comes from `p`; an optional field comes from `p` when
present there and is otherwise preserved from `e`. -/
def mergePhoto (e p : PhotoMetadata) : PhotoMetadata :=
  { p with
    fileBlob := p.fileBlob.orElse (fun _ => e.fileBlob)
    country := p.country.orElse (fun _ => e.country)
    manuallyPlaced := p.manuallyPlaced.orElse (fun _ => e.manuallyPlaced) }

/-- The `setPhotos` updater inside `addOrUpdatePhoto` (App.tsx): the first
record whose id matches is replaced by the spread-merge `{...prev[i], ...photo}`
at its original index; when no record matches, the record is appended. -/
def upsertPhotoList : List PhotoMetadata → PhotoMetadata → List PhotoMetadata
  | [], photo => [photo]
  | p :: rest, photo =>
    if p.id == photo.id then mergePhoto p photo :: rest
    else p :: upsertPhotoList rest photo

/-- A durably stored photo row: every `PhotoMetadata` field except `url`
(`savePhoto` deletes `url` before `put`). -/
structure StoredPhoto where
  id : String
  fileBlob : Option FileData
  name : String
  locationName : String
  country : Option String
  latitude : ℚ
  longitude : ℚ
  date : String
  description : String
  isProcessing : Bool
  manuallyPlaced : Option Bool
deriving DecidableEq

/-- `{ ...photo }` followed by `delete dataToSave.url` in `savePhoto`. -/
def stripUrl (p : PhotoMetadata) : StoredPhoto :=
  { id := p.id, fileBlob := p.fileBlob, name := p.name
    locationName := p.locationName, country := p.country
    latitude := p.latitude, longitude := p.longitude
    date := p.date, description := p.description
    isProcessing := p.isProcessing, manuallyPlaced := p.manuallyPlaced }

/-- IndexedDB `put` into a store with `keyPath` keys: replaces the row with
the same key in place, otherwise appends. -/
def dbPut {α : Type} : List (String × α) → String → α → List (String × α)
  | [], key, v => [(key, v)]
  | kv :: rest, key, v =>
    if kv.1 == key then (key, v) :: rest
    else kv :: dbPut rest key v

/-- Keyed lookup in a modelled IndexedDB object store. -/
def dbGet {α : Type} : List (String × α) → String → Option α
  | [], _ => none
  | kv :: rest, key => if kv.1 == key then some kv.2 else dbGet rest key

/-- The two IndexedDB object stores of dbService.ts
(`photos` keyed by id, `notes` keyed by photo id). -/
structure DurableDB where
  photos : List (String × StoredPhoto)
  notes : List (String × String)
deriving DecidableEq

/-- `savePhoto` from dbService.ts: strips `url` and `put`s the row. -/
def savePhoto (db : DurableDB) (photo : PhotoMetadata) : DurableDB :=
  { db with photos := dbPut db.photos photo.id (stripUrl photo) }

/-- `deletePhoto` from dbService.ts: one transaction deleting the photo row
and the note row for the same id (delete of an absent key succeeds). -/
def deletePhoto (db : DurableDB) (photoId : String) : DurableDB :=
  { photos := db.photos.filter (fun kv => !(kv.1 == photoId))
    notes := db.notes.filter (fun kv => !(kv.1 == photoId)) }

/-- `getAllPhotos` reconstruction of one row:
`{ ...p, url: p.fileBlob ? URL.createObjectURL(p.fileBlob) : "" }`.
`mkURL` models the session-scoped `URL.createObjectURL`. -/
def restorePhoto (mkURL : FileData → String) (sp : StoredPhoto) : PhotoMetadata :=
  { id := sp.id
    url := match sp.fileBlob with
           | some b => mkURL b
           | none => ""
    fileBlob := sp.fileBlob, name := sp.name
    locationName := sp.locationName, country := sp.country
    latitude := sp.latitude, longitude := sp.longitude
    date := sp.date, description := sp.description
    isProcessing := sp.isProcessing, manuallyPlaced := sp.manuallyPlaced }

/-- `getAllPhotos` from dbService.ts: every stored row with a freshly
regenerated display URL. -/
def getAllPhotos (mkURL : FileData → String) (db : DurableDB) : List PhotoMetadata :=
  db.photos.map (fun kv => restorePhoto mkURL kv.2)

/-- The whole client-side state App.tsx manipulates: the `photos` React
state, the `diaryNotes` React state, and the durable IndexedDB stores. -/
structure AppState where
  photos : List PhotoMetadata
  notes : List (String × String)
  db : DurableDB
deriving DecidableEq

def emptyState : AppState := ⟨[], [], ⟨[], []⟩⟩

/-- `addOrUpdatePhoto` from App.tsx: upsert into the in-memory list, then
`db.savePhoto(photo)` (note: the *incoming* record is persisted). -/
def addOrUpdatePhoto (st : AppState) (photo : PhotoMetadata) : AppState :=
  { st with
    photos := upsertPhotoList st.photos photo
    db := savePhoto st.db photo }

/-- Outcome of `handleDeletePhoto`: the confirm dialog was declined, the
deletion succeeded, or `db.deletePhoto` rejected and the catch branch
showed the failure alert. -/
inductive DeleteOutcome
  | cancelled
  | deleted
  | failed
deriving DecidableEq

/-- `handleDeletePhoto` from App.tsx.  `confirmed` models the
`window.confirm` answer; `dbOk` models whether the awaited
`db.deletePhoto` transaction succeeds.  On success the photo is filtered
out of the React state and the note key is deleted; on failure the catch
branch alerts and no state is touched.  (The modal/focus UI state is not
modelled.) -/
def handleDeletePhoto (st : AppState) (photoId : String)
    (confirmed dbOk : Bool) : AppState × DeleteOutcome :=
  if !confirmed then (st, .cancelled)
  else if dbOk then
    ({ photos := st.photos.filter (fun p => !(p.id == photoId))
       notes := st.notes.filter (fun kv => !(kv.1 == photoId))
       db := deletePhoto st.db photoId }, .deleted)
  else (st, .failed)

/-- The id computed in `processFile`:
`` `photo-${file.name}-${file.size}-${file.lastModified}` ``. -/
def photoId (f : FileData) : String :=
  "photo-" ++ f.name ++ "-" ++ natToString f.size ++ "-" ++ natToString f.lastModified

/-- The provisional record `newPhoto` created synchronously in
`processFile` (`url` is the fresh object URL for the file). -/
def processFileInitial (f : FileData) (url : String) (fileDate : JsDate) :
    PhotoMetadata :=
  { id := photoId f, url := url, fileBlob := some f, name := f.name
    locationName := "特定中...", country := none
    latitude := 0, longitude := 0
    date := (extractDateFromFilename f.name).getD (formatToISO fileDate)
    description := "Gemini AIが解析しています"
    isProcessing := true, manuallyPlaced := some false }

/-- The record `updated` built in `processFile` when `analyzeImage`
succeeds with `result`; it is passed to `addOrUpdatePhoto`. -/
def processFileEnriched (jsParse : String → Option JsDate) (f : FileData)
    (url : String) (fileDate : JsDate) (result : AnalysisResult) :
    PhotoMetadata :=
  { id := photoId f, url := url, fileBlob := some f, name := f.name
    locationName := result.locationName, country := result.country
    latitude := result.latitude, longitude := result.longitude
    date := parseSmartDate jsParse f.name result.date fileDate
    description := result.description
    isProcessing := false, manuallyPlaced := some false }

/-- The optimistic record `updated` built synchronously in
`updatePhotoLocation`. -/
def relocating (photo : PhotoMetadata) (lat lng : ℚ) : PhotoMetadata :=
  { photo with
    latitude := lat, longitude := lng
    locationName := "地点名を特定中..."
    isProcessing := true
    manuallyPlaced := some true }

/-- The synchronous phase of `updatePhotoLocation` from App.tsx: if no
record has the id, the updater returns `prev` unchanged (and the async
closure is never created); otherwise every position holding the id is
replaced by the optimistic `updated` record. -/
def updatePhotoLocation (prev : List PhotoMetadata) (id : String)
    (lat lng : ℚ) : List PhotoMetadata :=
  match prev.find? (fun p => p.id == id) with
  | none => prev
  | some photo =>
    prev.map (fun p => if p.id == id then relocating photo lat lng else p)

/-- The async closure spawned inside `updatePhotoLocation`, given the
captured `photo` and `updated` records and the outcome of
`identifyLocation`.  `none` means no second phase happens at all
(`photo.fileBlob` is absent, so the guarded block is skipped).  Otherwise
the result is the record written by the second `setPhotos`, paired with
whether `db.savePhoto` persists it (only the success path persists). -/
def updatePhotoLocationAsync (photo updated : PhotoMetadata)
    (service : Except Unit String) : Option (PhotoMetadata × Bool) :=
  match photo.fileBlob with
  | none => none
  | some _ =>
    match service with
    | .ok aiLocationName =>
      some ({ updated with locationName := aiLocationName, isProcessing := false }, true)
    | .error _ =>
      some ({ updated with locationName := "特定できませんでした", isProcessing := false }, false)

/-- `mappedPhotos` from MapView.tsx: photos whose numeric coordinates are
not exactly `(0, 0)`. -/
def mappedPhotos (photos : List PhotoMetadata) : List PhotoMetadata :=
  photos.filter (fun p => decide (p.latitude ≠ 0) || decide (p.longitude ≠ 0))

/-- The zero-padding step of `toFixed`: pad the digit string of the
rounded integer to at least `f + 1 = 7` characters. -/
def toFixed6Pad (m : List Char) : List Char :=
  if m.length ≤ 6 then List.replicate (7 - m.length) '0' ++ m else m

/-- Character-level `Number.prototype.toFixed(6)` on a rational: sign of
the value, then the magnitude rounded to an integer count of millionths
(ties towards the larger integer, per the ECMAScript algorithm),
zero-padded to at least seven digits and split by a decimal point before
the last six. -/
def toFixed6Chars (q : ℚ) : List Char :=
  let sign : List Char := if q < 0 then ['-'] else []
  let n : Nat := (Int.floor (|q| * 1000000 + 1 / 2)).toNat
  let m := toFixed6Pad (toDigitChars n)
  sign ++ (m.take (m.length - 6) ++ '.' :: m.drop (m.length - 6))

/-- JS `Number.prototype.toFixed(6)` on a rational. -/
def toFixed6 (q : ℚ) : String :=
  String.mk (toFixed6Chars q)

/-- The grouping key of the `clusters` reduce in MapView.tsx:
`` `${lat.toFixed(6)}-${lng.toFixed(6)}` ``. -/
def clusterKey (p : PhotoMetadata) : String :=
  toFixed6 p.latitude ++ "-" ++ toFixed6 p.longitude

/-- `ClusterItem` from MapView.tsx. -/
structure ClusterItem where
  name : String
  count : Nat
  lat : ℚ
  lng : ℚ
  photoIds : List String
  thumbnailUrl : String
deriving DecidableEq

/-- The entry created when a key is first seen (`count: 0, photoIds: []`,
representative fields from the first member). -/
def initCluster (p : PhotoMetadata) : ClusterItem :=
  { name := p.locationName, count := 0
    lat := p.latitude, lng := p.longitude
    photoIds := [], thumbnailUrl := p.url }

/-- `acc[key].count++; acc[key].photoIds.push(photo.id)`. -/
def bumpCluster (c : ClusterItem) (pid : String) : ClusterItem :=
  { c with count := c.count + 1, photoIds := c.photoIds ++ [pid] }

/-- One step of the `clusters` reduce, on the accumulator record modelled
as an association list in key-insertion order: create the entry when the
key is absent (then immediately bump it), otherwise bump the existing
entry in place. -/
def insertPhoto : List (String × ClusterItem) → String → PhotoMetadata →
    List (String × ClusterItem)
  | [], key, p => [(key, bumpCluster (initCluster p) p.id)]
  | kv :: rest, key, p =>
    if kv.1 == key then (kv.1, bumpCluster kv.2 p.id) :: rest
    else kv :: insertPhoto rest key p

/-- The full `clusters` reduce of MapView.tsx over a photo list. -/
def clustersOf (photos : List PhotoMetadata) : List (String × ClusterItem) :=
  photos.foldl (fun acc p => insertPhoto acc (clusterKey p) p) []

/-- The clusters the map renders: the reduce runs over `mappedPhotos`. -/
def mapViewClusters (photos : List PhotoMetadata) : List (String × ClusterItem) :=
  clustersOf (mappedPhotos photos)

/-- The members of a cluster key within a photo list. -/
def membersOf (key : String) (photos : List PhotoMetadata) : List PhotoMetadata :=
  photos.filter (fun p => clusterKey p == key)

/-- The cluster a nonempty member list denotes: representative fields from
the first member, count = number of members, ids in member order. -/
def canonicalCluster : List PhotoMetadata → Option ClusterItem
  | [] => none
  | h :: t =>
    some { name := h.locationName, count := (h :: t).length
           lat := h.latitude, lng := h.longitude
           photoIds := (h :: t).map (fun p => p.id)
           thumbnailUrl := h.url }

/-- Lookup in the modelled cluster accumulator. -/
def lookupC : List (String × ClusterItem) → String → Option ClusterItem
  | [], _ => none
  | kv :: rest, key => if kv.1 == key then some kv.2 else lookupC rest key

/-- An operation App.tsx can apply to its state, for the id-uniqueness
invariant: an upsert via `addOrUpdatePhoto` or a deletion via
`handleDeletePhoto` (with the confirm answer and the durable outcome). -/
inductive AppOp
  | upsert (photo : PhotoMetadata)
  | delete (photoId : String) (confirmed dbOk : Bool)

def applyOp (st : AppState) : AppOp → AppState
  | .upsert photo => addOrUpdatePhoto st photo
  | .delete photoId confirmed dbOk => (handleDeletePhoto st photoId confirmed dbOk).1

/-- A whole session: a sequence of operations applied to the empty state. -/
def applyOps (ops : List AppOp) : AppState :=
  ops.foldl applyOp emptyState

/-- A concrete uploaded file, used by the concrete evaluations below. -/
def sampleFile : FileData :=
  ⟨"IMG_20230714_picnic.jpg", 2048, 1700000000000, "image/jpeg", [137, 80, 78, 71]⟩

/-- A concrete inference-service response for `sampleFile`. -/
def sampleResult : AnalysisResult :=
  ⟨"東京タワー", some "Japan", 35, 139, "2023/07/14", "tower at night"⟩

def sampleFileDate : JsDate := ⟨2024, 0, 1⟩

/-- The provisional record `processFile` creates for `sampleFile`. -/
def sampleInitial : PhotoMetadata :=
  processFileInitial sampleFile "blob:session-1" sampleFileDate

/-- The enriched record `processFile` builds once `analyzeImage` returns
`sampleResult` for `sampleFile`. -/
def sampleEnriched : PhotoMetadata :=
  processFileEnriched (fun _ => none) sampleFile "blob:session-1" sampleFileDate sampleResult

/-- A concrete already-enriched record whose raw binary is retained. -/
def samplePlaced : PhotoMetadata :=
  { id := "p1", url := "blob:p1", fileBlob := some sampleFile, name := "x.jpg"
    locationName := "Tokyo", country := some "Japan"
    latitude := 35, longitude := 139, date := "2023-07-14"
    description := "skyline", isProcessing := false, manuallyPlaced := some false }

/-- A concrete record whose raw binary was never retained. -/
def sampleNoBlob : PhotoMetadata :=
  { samplePlaced with id := "p2", url := "blob:p2", fileBlob := none }

/-- A concrete app state holding `samplePlaced` and a note for it,
in memory and durably. -/
def sampleState : AppState :=
  { photos := [samplePlaced]
    notes := [("p1", "great day")]
    db := { photos := [("p1", stripUrl samplePlaced)], notes := [("p1", "great day")] } }

/-- A concrete located photo at `(10, 20)`. -/
def mapPhotoA : PhotoMetadata :=
  { samplePlaced with id := "a", url := "blob:a", latitude := 10, longitude := 20 }

/-- A concrete located photo at `(11, 20)`. -/
def mapPhotoC : PhotoMetadata :=
  { samplePlaced with id := "c", url := "blob:c", latitude := 11, longitude := 20 }

end VisionSort

namespace VisionSort

/-! ### Helper lemmas -/

theorem mergePhoto_id (e p : PhotoMetadata) : (mergePhoto e p).id = p.id := rfl

theorem mergePhoto_self (r : PhotoMetadata) : mergePhoto r r = r := by
  cases r with
  | mk id url fileBlob name locationName country lat lng date desc proc man =>
    cases fileBlob <;> cases country <;> cases man <;> rfl

theorem mergePhoto_absorb (e p : PhotoMetadata) :
    mergePhoto (mergePhoto e p) p = mergePhoto e p := by
  cases p with
  | mk id url fileBlob name locationName country lat lng date desc proc man =>
    cases fileBlob <;> cases country <;> cases man <;> rfl

theorem upsertPhotoList_idem (l : List PhotoMetadata) (r : PhotoMetadata) :
    upsertPhotoList (upsertPhotoList l r) r = upsertPhotoList l r := by
  induction l with
  | nil => simp [upsertPhotoList, mergePhoto_self]
  | cons p rest ih =>
    by_cases h : p.id == r.id
    · simp [upsertPhotoList, h, mergePhoto_id, mergePhoto_absorb]
    · simp [upsertPhotoList, h, ih]

theorem dbPut_idem {α : Type} (t : List (String × α)) (k : String) (v : α) :
    dbPut (dbPut t k v) k v = dbPut t k v := by
  induction t with
  | nil => simp [dbPut]
  | cons kv rest ih =>
    by_cases h : kv.1 == k
    · simp [dbPut, h]
    · simp [dbPut, h, ih]

theorem dbGet_dbPut_self {α : Type} (t : List (String × α)) (k : String) (v : α) :
    dbGet (dbPut t k v) k = some v := by
  induction t with
  | nil => simp [dbPut, dbGet]
  | cons kv rest ih =>
    by_cases h : kv.1 == k
    · simp [dbPut, h, dbGet]
    · simp [dbPut, h, dbGet, ih]

theorem dbGet_filterOut {α : Type} (l : List (String × α)) (X : String) :
    dbGet (l.filter (fun kv => !(kv.1 == X))) X = none := by
  induction l with
  | nil => rfl
  | cons kv rest ih =>
    by_cases h : kv.1 == X
    · simp [List.filter_cons, h, ih]
    · simp [List.filter_cons, h, dbGet, ih]

theorem dbGet_none_filterOut_eq {α : Type} (l : List (String × α)) (X : String)
    (h : dbGet l X = none) : l.filter (fun kv => !(kv.1 == X)) = l := by
  induction l with
  | nil => rfl
  | cons kv rest ih =>
    by_cases hk : kv.1 == X
    · simp [dbGet, hk] at h
    · simp [dbGet, hk] at h
      simp [List.filter_cons, hk, ih h]

theorem find?_filterOut (l : List PhotoMetadata) (X : String) :
    (l.filter (fun p => !(p.id == X))).find? (fun p => p.id == X) = none := by
  rw [List.find?_eq_none]
  intro x hx
  rcases List.mem_filter.mp hx with ⟨-, hpx⟩
  simpa using hpx

theorem filterOut_eq_self (l : List PhotoMetadata) (X : String)
    (h : ∀ p ∈ l, p.id ≠ X) : l.filter (fun p => !(p.id == X)) = l := by
  rw [List.filter_eq_self]
  intro p hp
  simpa using h p hp

/-! ### C3 : upsert is idempotent -/

/-- C3: Upsert is idempotent: for every photo record `r` and every app
state, applying `addOrUpdatePhoto` with `r` twice yields exactly the same
state (in-memory list and durable store) as applying it once; an existing
id is shallow-merged in place and an absent id is inserted. -/
theorem upsert_idempotent (st : AppState) (r : PhotoMetadata) :
    addOrUpdatePhoto (addOrUpdatePhoto st r) r = addOrUpdatePhoto st r := by
  simp [addOrUpdatePhoto, savePhoto, upsertPhotoList_idem, dbPut_idem]

/-! ### C5 : failed durable delete leaves state intact -/

/-- C5: When the durable delete rejects (`dbOk = false`), the catch branch
of `handleDeletePhoto` reports an explicit failure (the alert, modelled by
`DeleteOutcome.failed`) and the state — photo list, notes and durable
store — is returned exactly unchanged. -/
theorem delete_failure_atomic (st : AppState) (photoId : String) :
    handleDeletePhoto st photoId true false = (st, DeleteOutcome.failed) := rfl

/-! ### C1 : orphaned enrichment result after delete -/

/-- C1 (refuting evaluation): deleting `sampleInitial` while its
enrichment is in flight empties the store of its id, yet applying the
late-arriving enrichment merge (`addOrUpdatePhoto` with the enriched
record, exactly what `processFile`'s callback does) re-inserts the record
in memory and re-persists it durably — the photo is resurrected, not
silently discarded. -/
theorem orphan_enrichment_resurrects :
    ((handleDeletePhoto (addOrUpdatePhoto emptyState sampleInitial)
        (photoId sampleFile) true true).1.photos.find?
        (fun p => p.id == photoId sampleFile) = none)
    ∧ ((addOrUpdatePhoto
          (handleDeletePhoto (addOrUpdatePhoto emptyState sampleInitial)
            (photoId sampleFile) true true).1 sampleEnriched).photos.find?
          (fun p => p.id == photoId sampleFile) = some sampleEnriched)
    ∧ (dbGet (addOrUpdatePhoto
          (handleDeletePhoto (addOrUpdatePhoto emptyState sampleInitial)
            (photoId sampleFile) true true).1 sampleEnriched).db.photos
          (photoId sampleFile) = some (stripUrl sampleEnriched)) :=
  ⟨rfl, rfl, rfl⟩

/-! ### C2 : filename-embedded dates -/

/-- C2 (counterexample to the claim as stated): the file name
`"12345678_20230714.jpg"` contains the 8-digit substring `20230714`
(at offset 9), which is a valid `YYYYMMDD` by the claimed ranges, yet
date resolution returns the file-timestamp date `2024-01-01`, because the
leftmost 8-digit run `12345678` fails the year range and no later run is
tried. -/
theorem filename_date_counterexample :
    (("12345678_20230714.jpg".toList.drop 9).take 8 = "20230714".toList)
    ∧ (1980 < 2023 ∧ 2023 < 2100 ∧ 1 ≤ 7 ∧ 7 ≤ 12 ∧ 1 ≤ 14 ∧ 14 ≤ 31)
    ∧ parseSmartDate (fun _ => none) "12345678_20230714.jpg" "" ⟨2024, 0, 1⟩ = "2024-01-01"
    ∧ ("2024-01-01" : String) ≠ "2023-07-14" :=
  ⟨rfl, by norm_num, rfl, by decide⟩

/-- C2 (amended): for every file name whose *leftmost* run of 8
consecutive digits parses as `YYYYMMDD` with `1980 < Y < 2100`,
`1 ≤ M ≤ 12`, `1 ≤ D ≤ 31`, date resolution returns that date formatted
`YYYY-MM-DD`, for every service-proposed date string, every service date
parser and every file timestamp. -/
theorem filename_date_first_run_wins (jsParse : String → Option JsDate)
    (f ai : String) (fd : JsDate) (w : List Char)
    (hw : findMatch8 f.toList = some w)
    (hy1 : 1980 < digitsToNat (w.take 4)) (hy2 : digitsToNat (w.take 4) < 2100)
    (hm1 : 1 ≤ digitsToNat ((w.drop 4).take 2))
    (hm2 : digitsToNat ((w.drop 4).take 2) ≤ 12)
    (hd1 : 1 ≤ digitsToNat (w.drop 6)) (hd2 : digitsToNat (w.drop 6) ≤ 31) :
    parseSmartDate jsParse f ai fd =
      natToString (digitsToNat (w.take 4)) ++ "-"
        ++ pad2 (digitsToNat ((w.drop 4).take 2)) ++ "-"
        ++ pad2 (digitsToNat (w.drop 6)) := by
  have h1 : extractDateFromFilename f =
      some (natToString (digitsToNat (w.take 4)) ++ "-"
        ++ pad2 (digitsToNat ((w.drop 4).take 2)) ++ "-"
        ++ pad2 (digitsToNat (w.drop 6))) := by
    unfold extractDateFromFilename
    rw [hw]
    exact if_pos ⟨hy1, hy2, hm1, hm2, hd1, hd2⟩
  unfold parseSmartDate
  rw [h1]

theorem filename_date_first_run_wins_witness :
    parseSmartDate (fun _ => none) "IMG_20230714_picnic.jpg" "1999/12/31" ⟨2024, 0, 1⟩
      = "2023-07-14" :=
  (filename_date_first_run_wins (fun _ => none) "IMG_20230714_picnic.jpg"
    "1999/12/31" ⟨2024, 0, 1⟩ ("20230714".toList)
    rfl (by decide) (by decide) (by decide) (by decide) (by decide) (by decide)).trans
    (by decide)

/-! ### C4 : cascade delete, idempotent delete -/

/-- C4: a confirmed, durably successful delete of id `X` removes the photo
record and the note for `X` from the in-memory state and from both durable
stores in one operation; and when `X` was never present anywhere the
operation still succeeds (`deleted`, no failure path) and returns the
state unchanged. -/
theorem delete_cascades_and_absent_ok (st : AppState) (X : String) :
    ((handleDeletePhoto st X true true).1.photos.find? (fun p => p.id == X) = none
     ∧ dbGet (handleDeletePhoto st X true true).1.notes X = none
     ∧ dbGet (handleDeletePhoto st X true true).1.db.photos X = none
     ∧ dbGet (handleDeletePhoto st X true true).1.db.notes X = none
     ∧ (handleDeletePhoto st X true true).2 = DeleteOutcome.deleted)
    ∧ ((∀ p ∈ st.photos, p.id ≠ X) → dbGet st.notes X = none →
       dbGet st.db.photos X = none → dbGet st.db.notes X = none →
       handleDeletePhoto st X true true = (st, DeleteOutcome.deleted)) := by
  constructor
  · refine ⟨?_, ?_, ?_, ?_, rfl⟩
    · exact find?_filterOut st.photos X
    · exact dbGet_filterOut st.notes X
    · exact dbGet_filterOut st.db.photos X
    · exact dbGet_filterOut st.db.notes X
  · intro hp hn hdbp hdbn
    simp [handleDeletePhoto, deletePhoto, filterOut_eq_self st.photos X hp,
      dbGet_none_filterOut_eq st.notes X hn,
      dbGet_none_filterOut_eq st.db.photos X hdbp,
      dbGet_none_filterOut_eq st.db.notes X hdbn]

theorem delete_cascades_and_absent_ok_witness :
    handleDeletePhoto sampleState "photo-absent" true true
      = (sampleState, DeleteOutcome.deleted) :=
  (delete_cascades_and_absent_ok sampleState "photo-absent").2
    (by decide) rfl rfl rfl

/-! ### C6 : display reference never persisted -/

/-- C6: `savePhoto` stores, under the record's id, a row carrying every
field of the record except the display reference `url` (the row type has
no such field, and each remaining field is copied verbatim); and
`getAllPhotos` returns exactly the stored rows, each with a display
reference freshly regenerated from the stored binary payload by the
session URL factory (`""` when no payload is stored) — the stored part of
a loaded record is exactly the stored row. -/
theorem url_never_persisted (db : DurableDB) (photo : PhotoMetadata)
    (mkURL : FileData → String) (sp : StoredPhoto) :
    dbGet (savePhoto db photo).photos photo.id = some (stripUrl photo)
    ∧ ((stripUrl photo).id = photo.id ∧ (stripUrl photo).fileBlob = photo.fileBlob
       ∧ (stripUrl photo).name = photo.name
       ∧ (stripUrl photo).locationName = photo.locationName
       ∧ (stripUrl photo).country = photo.country
       ∧ (stripUrl photo).latitude = photo.latitude
       ∧ (stripUrl photo).longitude = photo.longitude
       ∧ (stripUrl photo).date = photo.date
       ∧ (stripUrl photo).description = photo.description
       ∧ (stripUrl photo).isProcessing = photo.isProcessing
       ∧ (stripUrl photo).manuallyPlaced = photo.manuallyPlaced)
    ∧ getAllPhotos mkURL db = db.photos.map (fun kv => restorePhoto mkURL kv.2)
    ∧ (restorePhoto mkURL sp).url =
        (match sp.fileBlob with
         | some b => mkURL b
         | none => "")
    ∧ stripUrl (restorePhoto mkURL sp) = sp := by
  refine ⟨dbGet_dbPut_self db.photos photo.id (stripUrl photo),
    ⟨rfl, rfl, rfl, rfl, rfl, rfl, rfl, rfl, rfl, rfl, rfl⟩, rfl, rfl, ?_⟩
  cases sp with
  | mk id fileBlob name locationName country lat lng date desc proc man => rfl

/-! ### C8 : manual relocation is a two-phase update -/

/-- C8: when `updatePhotoLocation` targets an existing record whose raw
binary is available, the synchronous phase replaces the record by the
optimistic one — new coordinates, `manuallyPlaced = true`,
`isProcessing = true`, the resolving-name placeholder — before any service
outcome exists; the async second phase then writes the service-provided
name on success and the distinct could-not-identify sentinel on failure,
ending with `isProcessing = false` in both cases. -/
theorem manual_relocation_two_phase (prev : List PhotoMetadata) (id : String)
    (lat lng : ℚ) (photo : PhotoMetadata) (b : FileData)
    (hfind : prev.find? (fun p => p.id == id) = some photo)
    (hblob : photo.fileBlob = some b) :
    updatePhotoLocation prev id lat lng =
      prev.map (fun p => if p.id == id then relocating photo lat lng else p)
    ∧ (relocating photo lat lng).latitude = lat
    ∧ (relocating photo lat lng).longitude = lng
    ∧ (relocating photo lat lng).manuallyPlaced = some true
    ∧ (relocating photo lat lng).isProcessing = true
    ∧ (relocating photo lat lng).locationName = "地点名を特定中..."
    ∧ (∀ name, updatePhotoLocationAsync photo (relocating photo lat lng) (.ok name) =
        some ({ relocating photo lat lng with
                locationName := name, isProcessing := false }, true))
    ∧ updatePhotoLocationAsync photo (relocating photo lat lng) (.error ()) =
        some ({ relocating photo lat lng with
                locationName := "特定できませんでした", isProcessing := false }, false)
    ∧ ("特定できませんでした" : String) ≠ "地点名を特定中..."
    ∧ ({ relocating photo lat lng with
         locationName := "特定できませんでした", isProcessing := false }).isProcessing = false := by
  refine ⟨?_, rfl, rfl, rfl, rfl, rfl, ?_, ?_, by decide, rfl⟩
  · unfold updatePhotoLocation
    rw [hfind]
  · intro name
    simp [updatePhotoLocationAsync, hblob]
  · simp [updatePhotoLocationAsync, hblob]

theorem manual_relocation_two_phase_witness :
    updatePhotoLocation [samplePlaced] "p1" 10 20 =
      [samplePlaced].map (fun p => if p.id == "p1" then relocating samplePlaced 10 20 else p) :=
  (manual_relocation_two_phase [samplePlaced] "p1" 10 20 samplePlaced sampleFile
    rfl rfl).1

/-! ### C10 : relocation without raw binary, or of a missing id -/

/-- C10: when the target id is absent, `updatePhotoLocation` is a complete
no-op; when the record exists but its raw binary payload is absent, only
the optimistic phase is applied — the stored record keeps
`isProcessing = true` and the placeholder name — and no second phase ever
occurs for any service outcome (`none`: no second write and no durable
save; the synchronous phase itself never touches durable storage). -/
theorem relocation_without_blob (prev : List PhotoMetadata) (id : String)
    (lat lng : ℚ) :
    (prev.find? (fun p => p.id == id) = none →
      updatePhotoLocation prev id lat lng = prev)
    ∧ (∀ photo, prev.find? (fun p => p.id == id) = some photo →
        photo.fileBlob = none →
        (∀ service, updatePhotoLocationAsync photo (relocating photo lat lng) service = none)
        ∧ updatePhotoLocation prev id lat lng =
            prev.map (fun p => if p.id == id then relocating photo lat lng else p)
        ∧ (relocating photo lat lng).isProcessing = true
        ∧ (relocating photo lat lng).locationName = "地点名を特定中...") := by
  constructor
  · intro hnone
    unfold updatePhotoLocation
    rw [hnone]
  · intro photo hfind hblob
    refine ⟨?_, ?_, rfl, rfl⟩
    · intro service
      simp [updatePhotoLocationAsync, hblob]
    · unfold updatePhotoLocation
      rw [hfind]

theorem relocation_without_blob_witness :
    ∀ service, updatePhotoLocationAsync sampleNoBlob (relocating sampleNoBlob 1 2) service = none :=
  ((relocation_without_blob [sampleNoBlob] "p2" 1 2).2 sampleNoBlob rfl rfl).1

/-! ### C9 : id uniqueness and positional behaviour of upserts -/

theorem upsertPhotoList_map_id (l : List PhotoMetadata) (r : PhotoMetadata) :
    (upsertPhotoList l r).map (fun p => p.id) =
      if r.id ∈ l.map (fun p => p.id) then l.map (fun p => p.id)
      else l.map (fun p => p.id) ++ [r.id] := by
  induction l with
  | nil => simp [upsertPhotoList]
  | cons p rest ih =>
    by_cases h : p.id == r.id
    · have he : p.id = r.id := eq_of_beq h
      simp [upsertPhotoList, h, mergePhoto_id, he]
    · have hne : r.id ≠ p.id := Ne.symm (by simpa using h)
      by_cases hm : r.id ∈ rest.map (fun p => p.id)
      · simp [upsertPhotoList, h, ih, hm, hne]
      · simp [upsertPhotoList, h, ih, hm, hne]

theorem upsertPhotoList_nodup (l : List PhotoMetadata) (r : PhotoMetadata)
    (h : (l.map (fun p => p.id)).Nodup) :
    ((upsertPhotoList l r).map (fun p => p.id)).Nodup := by
  rw [upsertPhotoList_map_id]
  by_cases hm : r.id ∈ l.map (fun p => p.id)
  · simpa [hm] using h
  · simp [hm, List.nodup_append, h]

theorem applyOp_nodup (st : AppState) (op : AppOp)
    (h : (st.photos.map (fun p => p.id)).Nodup) :
    ((applyOp st op).photos.map (fun p => p.id)).Nodup := by
  cases op with
  | upsert photo => exact upsertPhotoList_nodup st.photos photo h
  | delete pid confirmed dbOk =>
    cases confirmed with
    | false => simpa [applyOp, handleDeletePhoto] using h
    | true =>
      cases dbOk with
      | false => simpa [applyOp, handleDeletePhoto] using h
      | true =>
        have hsub : List.Sublist
            ((st.photos.filter (fun p => !(p.id == pid))).map (fun p => p.id))
            (st.photos.map (fun p => p.id)) :=
          (List.filter_sublist st.photos).map _
        simpa [applyOp, handleDeletePhoto] using List.Nodup.sublist hsub h

theorem foldl_applyOp_nodup (ops : List AppOp) (st : AppState)
    (h : (st.photos.map (fun p => p.id)).Nodup) :
    ((ops.foldl applyOp st).photos.map (fun p => p.id)).Nodup := by
  induction ops generalizing st with
  | nil => exact h
  | cons op rest ih => exact ih (applyOp st op) (applyOp_nodup st op h)

/-- C9: starting from the empty state, any sequence of
`addOrUpdatePhoto` / `handleDeletePhoto` operations leaves the in-memory
photo list free of duplicate ids; moreover each upsert leaves every other
record at its position — a record whose id is absent is appended at the
end, and a record matching the first occurrence of its id is spread-merged
in place at that index. -/
theorem id_uniqueness_invariant :
    (∀ ops : List AppOp, ((applyOps ops).photos.map (fun p => p.id)).Nodup)
    ∧ (∀ (prev : List PhotoMetadata) (photo : PhotoMetadata),
        ((∀ q ∈ prev, q.id ≠ photo.id) → upsertPhotoList prev photo = prev ++ [photo])
        ∧ (∀ i e, prev.get? i = some e → e.id = photo.id →
            (∀ j q, j < i → prev.get? j = some q → q.id ≠ photo.id) →
            upsertPhotoList prev photo = prev.set i (mergePhoto e photo))) := by
  constructor
  · intro ops
    exact foldl_applyOp_nodup ops emptyState (by simp [emptyState])
  · intro prev photo
    constructor
    · intro hall
      induction prev with
      | nil => rfl
      | cons p rest ih =>
        have hne : (p.id == photo.id) = false :=
          beq_eq_false_iff_ne.mpr (hall p (List.mem_cons_self p rest))
        simp [upsertPhotoList, hne]
        exact ih (fun q hq => hall q (List.mem_cons_of_mem p hq))
    · intro i e he heid hbefore
      induction prev generalizing i with
      | nil => simp at he
      | cons p rest ih =>
        cases i with
        | zero =>
          have hpe : p = e := by simpa using he
          subst hpe
          have hbeq : (p.id == photo.id) = true := beq_iff_eq.mpr heid
          simp [upsertPhotoList, hbeq, List.set]
        | succ i =>
          have hne : (p.id == photo.id) = false :=
            beq_eq_false_iff_ne.mpr
              (hbefore 0 p (Nat.succ_pos i) rfl)
          have hrest : rest.get? i = some e := by simpa using he
          have hb : ∀ j q, j < i → rest.get? j = some q → q.id ≠ photo.id := by
            intro j q hj hq
            exact hbefore (j + 1) q (Nat.succ_lt_succ hj) (by simpa using hq)
          simp [upsertPhotoList, hne, List.set]
          exact ih i hrest hb

theorem id_uniqueness_invariant_witness :
    upsertPhotoList [samplePlaced] sampleInitial = [samplePlaced] ++ [sampleInitial] :=
  (id_uniqueness_invariant.2 [samplePlaced] sampleInitial).1 (by decide)

/-! ### C7 : clustering by 6-decimal coordinate rendering

The grouping key of the reduce is the string
`toFixed6 lat ++ "-" ++ toFixed6 lng`; the lemmas below show this key is
injective in the pair of rendered components (a `toFixed6` rendering
contains no `-` after its first character, so the separator position is
determined), and characterise the accumulator the reduce builds. -/

theorem digitCharOf_ne_dash (d : Nat) : digitCharOf d ≠ '-' := by
  match d with
  | 0 => decide
  | 1 => decide
  | 2 => decide
  | 3 => decide
  | 4 => decide
  | 5 => decide
  | 6 => decide
  | 7 => decide
  | 8 => decide
  | 9 => decide
  | n + 10 =>
    show ('0' : Char) ≠ '-'
    decide

theorem toDigitCharsAux_no_dash (fuel : Nat) :
    ∀ n, ∀ c ∈ toDigitCharsAux fuel n, c ≠ '-' := by
  induction fuel with
  | zero => intro n c hc; simp [toDigitCharsAux] at hc
  | succ fuel ih =>
    intro n c hc
    rw [toDigitCharsAux] at hc
    split at hc
    · rcases List.mem_singleton.mp hc with rfl
      exact digitCharOf_ne_dash n
    · rcases List.mem_append.mp hc with h | h
      · exact ih (n / 10) c h
      · rcases List.mem_singleton.mp h with rfl
        exact digitCharOf_ne_dash (n % 10)

theorem toDigitChars_no_dash (n : Nat) : ∀ c ∈ toDigitChars n, c ≠ '-' :=
  toDigitCharsAux_no_dash (n + 1) n

theorem toFixed6Pad_no_dash (m : List Char) (hm : ∀ c ∈ m, c ≠ '-') :
    ∀ c ∈ toFixed6Pad m, c ≠ '-' := by
  unfold toFixed6Pad
  split
  · intro c hc
    rcases List.mem_append.mp hc with h | h
    · rcases List.eq_of_mem_replicate h with rfl
      decide
    · exact hm c h
  · exact hm

theorem splitBody_no_dash (m : List Char) (hm : ∀ c ∈ m, c ≠ '-') (k : Nat) :
    ∀ c ∈ (m.take k ++ '.' :: m.drop k), c ≠ '-' := by
  intro c hc
  rcases List.mem_append.mp hc with h | h
  · exact hm c (List.take_subset k m h)
  · rcases List.mem_cons.mp h with rfl | h
    · decide
    · exact hm c (List.drop_subset k m h)

theorem toFixed6Chars_no_dash_tail (q : ℚ) :
    ∀ c ∈ (toFixed6Chars q).drop 1, c ≠ '-' := by
  have hbody := splitBody_no_dash
    (toFixed6Pad (toDigitChars (Int.floor (|q| * 1000000 + 1 / 2)).toNat))
    (toFixed6Pad_no_dash _ (toDigitChars_no_dash _))
    ((toFixed6Pad (toDigitChars (Int.floor (|q| * 1000000 + 1 / 2)).toNat)).length - 6)
  simp only [toFixed6Chars]
  split
  · intro c hc
    exact hbody c (by simpa using hc)
  · intro c hc
    exact hbody c (List.drop_subset 1 _ (by simpa using hc))

theorem toFixed6Chars_ne_nil (q : ℚ) : toFixed6Chars q ≠ [] := by
  simp only [toFixed6Chars]
  split <;> simp

theorem append_sep_lt_absurd (X₁ Y₁ X₂ Y₂ : List Char)
    (hx2 : ∀ c ∈ X₂.drop 1, c ≠ '-') (hne1 : X₁ ≠ [])
    (heq : X₁ ++ '-' :: Y₁ = X₂ ++ '-' :: Y₂)
    (hlt : X₁.length < X₂.length) : False := by
  have e1 : (X₁ ++ '-' :: Y₁).get? X₁.length = some '-' := by
    rw [List.get?_append_right (le_refl _)]
    simp
  have e2 : (X₂ ++ '-' :: Y₂).get? X₁.length = X₂.get? X₁.length :=
    List.get?_append hlt
  have hx : X₂.get? X₁.length = some '-' := by
    rw [← e2, ← heq]; exact e1
  have hpos : 1 ≤ X₁.length := by
    cases X₁ with
    | nil => exact absurd rfl hne1
    | cons a l => simp
  have hd : (X₂.drop 1).get? (X₁.length - 1) = some '-' := by
    rw [List.get?_drop]
    rw [show 1 + (X₁.length - 1) = X₁.length by omega]
    exact hx
  exact hx2 '-' (List.get?_mem hd) rfl

theorem append_sep_inj (A₁ B₁ A₂ B₂ : List Char)
    (h1 : ∀ c ∈ A₁.drop 1, c ≠ '-') (hne1 : A₁ ≠ [])
    (h2 : ∀ c ∈ A₂.drop 1, c ≠ '-') (hne2 : A₂ ≠ [])
    (h : A₁ ++ '-' :: B₁ = A₂ ++ '-' :: B₂) : A₁ = A₂ ∧ B₁ = B₂ := by
  have hlen : A₁.length = A₂.length := by
    rcases Nat.lt_trichotomy A₁.length A₂.length with hlt | heq | hgt
    · exact absurd (append_sep_lt_absurd A₁ B₁ A₂ B₂ h2 hne1 h hlt) id
    · exact heq
    · exact absurd (append_sep_lt_absurd A₂ B₂ A₁ B₁ h1 hne2 h.symm hgt) id
  rcases List.append_inj h hlen with ⟨hA, hB⟩
  refine ⟨hA, ?_⟩
  injection hB

theorem clusterKey_inj (p q : PhotoMetadata) (h : clusterKey p = clusterKey q) :
    toFixed6 p.latitude = toFixed6 q.latitude
    ∧ toFixed6 p.longitude = toFixed6 q.longitude := by
  have hdata : (clusterKey p).data = (clusterKey q).data := congrArg String.data h
  have hlist : toFixed6Chars p.latitude ++ '-' :: toFixed6Chars p.longitude
      = toFixed6Chars q.latitude ++ '-' :: toFixed6Chars q.longitude := by
    simpa [clusterKey, toFixed6, String.data_append, List.append_assoc] using hdata
  have := append_sep_inj _ _ _ _
    (toFixed6Chars_no_dash_tail p.latitude) (toFixed6Chars_ne_nil p.latitude)
    (toFixed6Chars_no_dash_tail q.latitude) (toFixed6Chars_ne_nil q.latitude) hlist
  exact ⟨congrArg String.mk this.1, congrArg String.mk this.2⟩

theorem lookupC_insert_self (acc : List (String × ClusterItem)) (key : String)
    (p : PhotoMetadata) :
    lookupC (insertPhoto acc key p) key =
      some (match lookupC acc key with
            | none => bumpCluster (initCluster p) p.id
            | some c => bumpCluster c p.id) := by
  induction acc with
  | nil => simp [insertPhoto, lookupC]
  | cons kv rest ih =>
    by_cases h : kv.1 == key
    · simp [insertPhoto, h, lookupC]
    · simp [insertPhoto, h, lookupC, ih]

theorem lookupC_insert_other (acc : List (String × ClusterItem)) (key key' : String)
    (p : PhotoMetadata) (hne : key' ≠ key) :
    lookupC (insertPhoto acc key p) key' = lookupC acc key' := by
  have hne2 : (key == key') = false := beq_eq_false_iff_ne.mpr (Ne.symm hne)
  induction acc with
  | nil => simp [insertPhoto, lookupC, hne2]
  | cons kv rest ih =>
    by_cases h : kv.1 == key
    · have hkv : (kv.1 == key') = false := by
        rw [eq_of_beq h]; exact hne2
      simp [insertPhoto, h, lookupC, hkv]
    · by_cases h2 : kv.1 == key'
      · simp [insertPhoto, h, lookupC, h2]
      · simp [insertPhoto, h, lookupC, h2, ih]

theorem mem_of_lookupC (acc : List (String × ClusterItem)) (key : String)
    (c : ClusterItem) (h : lookupC acc key = some c) : (key, c) ∈ acc := by
  induction acc with
  | nil => simp [lookupC] at h
  | cons kv rest ih =>
    by_cases hk : kv.1 == key
    · simp [lookupC, hk] at h
      have : kv = (key, c) := by
        cases kv with
        | mk k v =>
          simp at hk h
          exact Prod.ext hk (by simpa using h)
      rw [← this]
      exact List.mem_cons_self kv rest
    · simp [lookupC, hk] at h
      exact List.mem_cons_of_mem kv (ih h)

theorem lookupC_of_mem (acc : List (String × ClusterItem)) (key : String)
    (c : ClusterItem) (hnd : (acc.map Prod.fst).Nodup) (h : (key, c) ∈ acc) :
    lookupC acc key = some c := by
  induction acc with
  | nil => simp at h
  | cons kv rest ih =>
    rw [List.map_cons] at hnd
    rcases List.nodup_cons.mp hnd with ⟨hmem, hrest⟩
    rcases List.mem_cons.mp h with rfl | hmemr
    · simp [lookupC]
    · have hk : kv.1 ≠ key := by
        intro he
        apply hmem
        rw [he]
        exact List.mem_map_of_mem Prod.fst hmemr
      simp [lookupC, beq_eq_false_iff_ne.mpr hk]
      exact ih hrest hmemr

theorem keys_insert_subset (acc : List (String × ClusterItem)) (key : String)
    (p : PhotoMetadata) :
    ∀ k ∈ (insertPhoto acc key p).map Prod.fst, k ∈ acc.map Prod.fst ∨ k = key := by
  induction acc with
  | nil => simp [insertPhoto]
  | cons kv rest ih =>
    by_cases h : kv.1 == key
    · intro k hk
      simp [insertPhoto, h] at hk
      rcases hk with rfl | hk
      · exact Or.inl (by simp)
      · exact Or.inl (by simp [hk])
    · intro k hk
      simp [insertPhoto, h] at hk
      rcases hk with rfl | hk
      · exact Or.inl (by simp)
      · rcases ih k (by simpa using hk) with h1 | h1
        · exact Or.inl (by simp [List.mem_map] at h1 ⊢; tauto)
        · exact Or.inr h1

theorem keys_insert_nodup (acc : List (String × ClusterItem)) (key : String)
    (p : PhotoMetadata) (h : (acc.map Prod.fst).Nodup) :
    ((insertPhoto acc key p).map Prod.fst).Nodup := by
  induction acc with
  | nil => simp [insertPhoto]
  | cons kv rest ih =>
    rw [List.map_cons] at h
    rcases List.nodup_cons.mp h with ⟨hmem, hrest⟩
    by_cases hk : kv.1 == key
    · have hins : insertPhoto (kv :: rest) key p = (kv.1, bumpCluster kv.2 p.id) :: rest := by
        simp [insertPhoto, hk]
      rw [hins, List.map_cons]
      exact List.nodup_cons.mpr ⟨hmem, hrest⟩
    · have hins : insertPhoto (kv :: rest) key p = kv :: insertPhoto rest key p := by
        simp [insertPhoto, hk]
      rw [hins, List.map_cons]
      refine List.nodup_cons.mpr ⟨?_, ih hrest⟩
      intro hmem2
      rcases keys_insert_subset rest key p kv.1 hmem2 with h1 | h1
      · exact hmem h1
      · exact absurd h1 (by simpa using hk)

theorem canonicalCluster_append (ms : List PhotoMetadata) (p : PhotoMetadata) :
    canonicalCluster (ms ++ [p]) =
      some (match canonicalCluster ms with
            | none => bumpCluster (initCluster p) p.id
            | some c => bumpCluster c p.id) := by
  cases ms with
  | nil => simp [canonicalCluster, bumpCluster, initCluster]
  | cons h t => simp [canonicalCluster, bumpCluster]

theorem clusterFold_inv (ps : List PhotoMetadata) :
    ∀ (seen : List PhotoMetadata) (acc : List (String × ClusterItem)),
      (acc.map Prod.fst).Nodup →
      (∀ key, lookupC acc key = canonicalCluster (membersOf key seen)) →
      ((ps.foldl (fun acc p => insertPhoto acc (clusterKey p) p) acc).map Prod.fst).Nodup
      ∧ ∀ key, lookupC (ps.foldl (fun acc p => insertPhoto acc (clusterKey p) p) acc) key
          = canonicalCluster (membersOf key (seen ++ ps)) := by
  induction ps with
  | nil =>
    intro seen acc h1 h2
    simpa using ⟨h1, h2⟩
  | cons p rest ih =>
    intro seen acc h1 h2
    have hstep : ∀ key, lookupC (insertPhoto acc (clusterKey p) p) key
        = canonicalCluster (membersOf key (seen ++ [p])) := by
      intro key
      by_cases hk : key = clusterKey p
      · subst hk
        rw [lookupC_insert_self]
        have hm : membersOf (clusterKey p) (seen ++ [p])
            = membersOf (clusterKey p) seen ++ [p] := by
          simp [membersOf, List.filter_append]
        rw [hm, canonicalCluster_append, h2]
      · rw [lookupC_insert_other acc (clusterKey p) key p hk]
        have hm : membersOf key (seen ++ [p]) = membersOf key seen := by
          simp [membersOf, List.filter_append,
            beq_eq_false_iff_ne.mpr (Ne.symm hk)]
        rw [hm]
        exact h2 key
    have hres := ih (seen ++ [p]) (insertPhoto acc (clusterKey p) p)
      (keys_insert_nodup acc (clusterKey p) p h1) hstep
    simpa [List.append_assoc] using hres

theorem clustersOf_char (ps : List PhotoMetadata) :
    ((clustersOf ps).map Prod.fst).Nodup
    ∧ ∀ key, lookupC (clustersOf ps) key = canonicalCluster (membersOf key ps) := by
  have := clusterFold_inv ps [] []
    (by simp)
    (by intro key; simp [lookupC, membersOf, canonicalCluster])
  simpa [clustersOf] using this

/-- C7: two photos that the map displays (numeric coordinates, not both
zero) land in the same cluster of the `clusters` reduce exactly when their
latitudes and their longitudes render identically at six decimal places;
and every cluster entry carries the `locationName` of the first member
with its key, a count equal to the number of members, and exactly the
member ids. -/
theorem clusters_by_six_decimals (ps : List PhotoMetadata)
    (hids : (ps.map (fun p => p.id)).Nodup) (p q : PhotoMetadata)
    (hp : p ∈ mappedPhotos ps) (hq : q ∈ mappedPhotos ps) :
    ((∃ key c, (key, c) ∈ mapViewClusters ps
        ∧ p.id ∈ c.photoIds ∧ q.id ∈ c.photoIds)
      ↔ (toFixed6 p.latitude = toFixed6 q.latitude
         ∧ toFixed6 p.longitude = toFixed6 q.longitude))
    ∧ (∀ key c, (key, c) ∈ mapViewClusters ps →
        ∃ h t, membersOf key (mappedPhotos ps) = h :: t
          ∧ c.name = h.locationName
          ∧ c.count = (h :: t).length
          ∧ c.photoIds = (h :: t).map (fun r => r.id)) := by
  obtain ⟨hnd, hlk⟩ := clustersOf_char (mappedPhotos ps)
  have hmids : ((mappedPhotos ps).map (fun p => p.id)).Nodup := by
    have hsub : List.Sublist ((mappedPhotos ps).map (fun p => p.id))
        (ps.map (fun p => p.id)) :=
      (List.filter_sublist ps).map _
    exact List.Nodup.sublist hsub hids
  have hcontents : ∀ key c, (key, c) ∈ mapViewClusters ps →
      ∃ h t, membersOf key (mappedPhotos ps) = h :: t
        ∧ c.name = h.locationName
        ∧ c.count = (h :: t).length
        ∧ c.photoIds = (h :: t).map (fun r => r.id) := by
    intro key c hmem
    have hl := lookupC_of_mem _ _ _ hnd hmem
    rw [hlk key] at hl
    cases hm : membersOf key (mappedPhotos ps) with
    | nil => rw [hm] at hl; simp [canonicalCluster] at hl
    | cons h t =>
      rw [hm] at hl
      simp only [canonicalCluster, Option.some_inj] at hl
      exact ⟨h, t, rfl, by rw [← hl], by rw [← hl], by rw [← hl]⟩
  refine ⟨⟨?_, ?_⟩, hcontents⟩
  · rintro ⟨key, c, hmem, hpid, hqid⟩
    obtain ⟨h, t, hm, -, -, hpids⟩ := hcontents key c hmem
    rw [hpids] at hpid hqid
    obtain ⟨p', hp', hpeq⟩ := List.mem_map.mp hpid
    obtain ⟨q', hq', hqeq⟩ := List.mem_map.mp hqid
    have hp'm : p' ∈ membersOf key (mappedPhotos ps) := by rw [hm]; exact hp'
    have hq'm : q' ∈ membersOf key (mappedPhotos ps) := by rw [hm]; exact hq'
    obtain ⟨hp'in, hp'key⟩ := List.mem_filter.mp hp'm
    obtain ⟨hq'in, hq'key⟩ := List.mem_filter.mp hq'm
    have hpp : p' = p :=
      List.inj_on_of_nodup_map hmids hp'in hp hpeq
    have hqq : q' = q :=
      List.inj_on_of_nodup_map hmids hq'in hq hqeq
    have hkp : clusterKey p = key := by
      rw [← hpp]; exact eq_of_beq hp'key
    have hkq : clusterKey q = key := by
      rw [← hqq]; exact eq_of_beq hq'key
    exact clusterKey_inj p q (hkp.trans hkq.symm)
  · rintro ⟨hlat, hlng⟩
    have hkey : clusterKey q = clusterKey p := by
      simp [clusterKey, hlat, hlng]
    have hpm : p ∈ membersOf (clusterKey p) (mappedPhotos ps) :=
      List.mem_filter.mpr ⟨hp, by simp⟩
    have hqm : q ∈ membersOf (clusterKey p) (mappedPhotos ps) :=
      List.mem_filter.mpr ⟨hq, by simp [hkey]⟩
    cases hm : membersOf (clusterKey p) (mappedPhotos ps) with
    | nil => rw [hm] at hpm; simp at hpm
    | cons h t =>
      have hl := hlk (clusterKey p)
      rw [hm] at hl
      simp only [canonicalCluster] at hl
      refine ⟨clusterKey p, _, mem_of_lookupC _ _ _ hl, ?_, ?_⟩
      · rw [hm] at hpm
        exact List.mem_map_of_mem (fun r => r.id) hpm
      · rw [hm] at hqm
        exact List.mem_map_of_mem (fun r => r.id) hqm

theorem clusters_by_six_decimals_witness :
    (∃ key c, (key, c) ∈ mapViewClusters [mapPhotoA, mapPhotoC]
        ∧ mapPhotoA.id ∈ c.photoIds ∧ mapPhotoC.id ∈ c.photoIds)
      ↔ (toFixed6 mapPhotoA.latitude = toFixed6 mapPhotoC.latitude
         ∧ toFixed6 mapPhotoA.longitude = toFixed6 mapPhotoC.longitude) :=
  (clusters_by_six_decimals [mapPhotoA, mapPhotoC] (by decide)
    mapPhotoA mapPhotoC (by decide) (by decide)).1

end VisionSort
